import Mathlib

/-
Verification of the Q-Emulator file I/O module (source/file_io.py):
the binary-program loader `load` and the memory-dump formatter
`QTEmulatorDump` (class `QTEmulatorIO` in the source).  The byte
stream of a file is embedded as a `List Nat` of bytes; Python
exceptions are embedded as `Except` errors, and divergence of the
header-scanning loop as the `none` case of an `Option`.
-/

namespace QEmu

/-- Embedding of Python `int.from_bytes(bs)` (big-endian, the default
byte order): fold the byte list most-significant first. -/
def fromBytesBE (bs : List Nat) : Nat :=
  bs.foldl (fun acc b => acc * 256 + b) 0

/-- Errors raised by `load` (`source/file_io.py`):
`malformedNamespace` is the bare `raise Exception` on an unrecognized
namespace header (line 31); `indexError` is the Python `IndexError`
raised by `raw_instruction[3]` when the byte group has no index 3. -/
inductive LoadError where
  | malformedNamespace
  | indexError
deriving DecidableEq

/-- Embedding of the instruction-decoding body of `load`
(lines 35–39): `memory_flag = raw_instruction[0] & 1`,
`value = int.from_bytes(raw_instruction[1:3])`,
`opcode = raw_instruction[3]`.  The Python slice `raw[1:3]` clamps and
never fails; indexing `raw[0]` and `raw[3]` raises `IndexError` when
out of range, embedded as `none`. -/
def decodeGroup (raw : List Nat) : Option (Nat × Nat × Nat) :=
  match raw[0]?, raw[3]? with
  | some b0, some b3 =>
      some (b0 &&& 1, fromBytesBE ((raw.drop 1).take 2), b3)
  | _, _ => none

/-- Embedding of the `while True` instruction loop of `load`
(lines 25–39) after the namespace has been fixed: `size` is the number
of bytes per group (4 for `QT`, 3 for `QM`).  `file.read(size)` on the
remaining bytes is `take size`; an empty read breaks the loop;
otherwise the group is decoded and appended. -/
def decodeLoop (size : Nat) : List Nat → Except LoadError (List (Nat × Nat × Nat))
  | [] => Except.ok []
  | b :: rest =>
    match decodeGroup (b :: rest.take (size - 1)) with
    | none => Except.error LoadError.indexError
    | some t =>
      match decodeLoop size (rest.drop (size - 1)) with
      | Except.ok ts => Except.ok (t :: ts)
      | Except.error e => Except.error e
termination_by l => l.length
decreasing_by
  simp only [List.length_cons, List.length_drop]
  omega

/-- Embedding of the header-scanning loop of `load` (lines 20–22):
read single bytes until the terminator `0x00`, returning the namespace
bytes before the terminator and the remaining bytes after it.  `none`
embeds the case in which the loop never reads a `0x00` byte and hence
never exits (at end of file `file.read(1)` keeps returning the empty
byte string, which is not the terminator). -/
def scanHeader : List Nat → Option (List Nat × List Nat)
  | [] => none
  | b :: rest =>
    if b = 0 then some ([], rest)
    else
      match scanHeader rest with
      | some (ns, body) => some (b :: ns, body)
      | none => none

/-- Fuel-indexed embedding of the same header-scanning loop, faithful
to the byte-at-a-time reads of the source: `pos` is the file position,
`ns` the namespace accumulated so far.  `file.read(1)` is
`(file.drop pos).take 1`, which at end of file is the empty list and
advances the position by zero.  The loop exits (with the namespace and
the position after the terminator) only upon reading a `0x00` byte;
`none` means the loop has not exited within `fuel` iterations. -/
def scanHeaderFuel (file : List Nat) : Nat → Nat → List Nat → Option (List Nat × Nat)
  | 0, _, _ => none
  | fuel + 1, pos, ns =>
    let char := (file.drop pos).take 1
    if char = [0] then some (ns, pos + 1)
    else scanHeaderFuel file fuel (pos + char.length) (ns ++ char)

/-- Embedding of `load` (`source/file_io.py`, lines 11–40) on the byte
contents of the file.  The outer `Option` is `none` when the
header-scanning loop diverges (no `0x00` terminator in the file); the
`Except` carries the Python exceptions of the decode phase.
`[81, 84]` is `b'QT'` and `[81, 77]` is `b'QM'`. -/
def load (file : List Nat) : Option (Except LoadError (List (Nat × Nat × Nat))) :=
  match scanHeader file with
  | none => none
  | some (ns, body) =>
    if ns = [81, 84] then some (decodeLoop 4 body)
    else if ns = [81, 77] then some (decodeLoop 3 body)
    else some (Except.error LoadError.malformedNamespace)

/-- Modelled from the spec: the wide 4-byte encoding produced by the
external Q-Compiler (missing from the repository), per the §4.1 wide
layout — byte 0 carries `memory_flag` in its least-significant bit,
bytes 1–2 are the big-endian 16-bit `value`, byte 3 is `opcode`. -/
def encodeWide (memory_flag : Bool) (value opcode : Nat) : List Nat :=
  [if memory_flag then 1 else 0, value / 256, value % 256, opcode]

/-- Modelled from the spec: the emulator state read by the dump
formatter (class `QTEmulator` of `source/qt_emulator.py`, which is not
part of the given sources) — four memory segments as ordered sequences
of fixed-width unsigned cells, and six scalar registers. -/
structure QTEmulator where
  cache : List Nat
  stack : List Nat
  address_stack : List Nat
  ports : List Nat
  accumulator : Nat
  pointer_register : Nat
  program_counter : Nat
  flag_register : Nat
  stack_pointer : Nat
  address_stack_pointer : Nat
deriving DecidableEq

namespace QTEmulatorDump

/-- Class attribute `offset` of `QTEmulatorIO`: cells per dump row. -/
def offset : Nat := 16

/-- Class attribute `index_offset` of `QTEmulatorIO`. -/
def index_offset : Nat := 4

/-- Class attribute `added_offset` of `QTEmulatorIO`. -/
def added_offset : Nat := 3

/-- Class attribute `number_offset` of `QTEmulatorIO`. -/
def number_offset : Nat := 5

/-- Class attribute `section_size` of `QTEmulatorIO`. -/
def section_size : Nat := offset * (number_offset + 1) + index_offset + added_offset

/-- Python format padding on the left with a fill character, as in the
zero-padded `0{w}d` and space-padded format specifications: no change
when the string is already at least `w` characters wide. -/
def padLeftWith (c : Char) (w : Nat) (s : String) : String :=
  String.mk (List.replicate (w - s.length) c) ++ s

/-- Python left-aligned format `: <w` padding on the right. -/
def padRightWith (c : Char) (w : Nat) (s : String) : String :=
  s ++ String.mk (List.replicate (w - s.length) c)

/-- Python centered format `:c^w`: the extra fill character of an odd
amount of padding goes to the right. -/
def centerWith (c : Char) (w : Nat) (s : String) : String :=
  String.mk (List.replicate ((w - s.length) / 2) c) ++ s ++
    String.mk (List.replicate (w - s.length - (w - s.length) / 2) c)

/-- Python format `0{w}d` for an unsigned cell value. -/
def zeroPadFormat (w : Nat) (n : Nat) : String :=
  padLeftWith '0' w (toString n)

/-- Python format `: {w}d` (space sign option, right aligned) for a
nonnegative index: a leading sign space, then space padding. -/
def signSpaceFormat (w : Nat) (n : Nat) : String :=
  padLeftWith ' ' w (" " ++ toString n)

/-- The column-ruler loop of `_create_memory_dump` (lines 62–63):
`for i in range(offset): file.write(f"..{i}.. ")`. -/
def rulerLine : String :=
  String.join ((List.range offset).map (fun i => signSpaceFormat number_offset i ++ " "))

/-- The row loop of `_create_memory_dump` (lines 64–68), embedded as a
recursion over the row start index: Python
`for index in range(0, len(memory), offset)` runs while
`index < len(memory)` and steps by `offset`; each iteration writes a
newline, the zero-padded row index, `" | "`, and the cells
`memory[index:index + offset]` space-joined and zero-padded. -/
def dumpRowsLoop (memory : List Nat) (index : Nat) : String :=
  if index < memory.length then
    ("\n" ++ zeroPadFormat index_offset index ++ " | " ++
      String.intercalate " "
        (((memory.drop index).take offset).map (zeroPadFormat number_offset))) ++
    dumpRowsLoop memory (index + offset)
  else ""
termination_by memory.length - index
decreasing_by
  simp only [offset]
  omega

/-- The sequence of cell values visited by the row loop of
`_create_memory_dump`, in iteration order: for each row start index
the slice `memory[index:index + offset]`. -/
def emitLoop (memory : List Nat) (index : Nat) : List Nat :=
  if index < memory.length then
    (memory.drop index).take offset ++ emitLoop memory (index + offset)
  else []
termination_by memory.length - index
decreasing_by
  simp only [offset]
  omega

/-- All cell values emitted by `_create_memory_dump` for a segment, in
emission order. -/
def emittedCells (memory : List Nat) : List Nat :=
  emitLoop memory 0

/-- Embedding of classmethod `_create_memory_dump` of `QTEmulatorIO`
(lines 54–69): the full text written to the section's dump file. -/
def createSectionDump (memory : List Nat) (section_name : String) : String :=
  centerWith '=' section_size ("[" ++ section_name.toUpper ++ " SECTION START]") ++ "\n" ++
  String.mk (List.replicate (index_offset + added_offset) ' ') ++
  rulerLine ++
  dumpRowsLoop memory 0 ++
  "\n" ++ centerWith '=' section_size ("[" ++ section_name.toUpper ++ " SECTION END]") ++ "\n\n"

/-- The register dump written by `create_memory_dump` to the
`.REGISTERS.dmp` file (lines 86–93); numpy scalar `.item()` reads are
embedded as plain projections of the register values. -/
def createRegistersDump (e : QTEmulator) : String :=
  centerWith '=' section_size "[REGISTER SECTION START]" ++ "\n" ++
  padRightWith ' ' 4 "ACC" ++ " = " ++ toString e.accumulator ++ "\n" ++
  padRightWith ' ' 4 "PR" ++ " = " ++ toString e.pointer_register ++ "\n" ++
  padRightWith ' ' 4 "PC" ++ " = " ++ toString e.program_counter ++ "\n" ++
  padRightWith ' ' 4 "FR" ++ " = " ++ toString e.flag_register ++ "\n" ++
  padRightWith ' ' 4 "SP" ++ " = " ++ toString e.stack_pointer ++ "\n" ++
  padRightWith ' ' 4 "ASP" ++ " = " ++ toString e.address_stack_pointer ++ "\n" ++
  centerWith '=' section_size "[REGISTER SECTION END]" ++ "\n"

/-- The contents of the five dump files written by
`create_memory_dump`. -/
structure DumpFiles where
  cacheDump : String
  stackDump : String
  addressStackDump : String
  portsDump : String
  registersDump : String
deriving DecidableEq

/-- Embedding of classmethod `create_memory_dump` of `QTEmulatorIO`
(lines 71–93): the emulator state is threaded through explicitly and
returned alongside the file contents; the source performs no
assignment to any emulator attribute, so the returned state is the
input state. -/
def create_memory_dump (e : QTEmulator) : DumpFiles × QTEmulator :=
  (⟨createSectionDump e.cache "CACHE",
    createSectionDump e.stack "STACK",
    createSectionDump e.address_stack "ADDR_STACK",
    createSectionDump e.ports "PORTS",
    createRegistersDump e⟩, e)

end QTEmulatorDump

/-! ### Helper lemmas -/

/-- The row loop of the dump formatter visits, from start index
`index`, exactly the cells `memory.drop index` in order. -/
theorem emitLoop_eq_drop (memory : List Nat) (index : Nat) :
    QTEmulatorDump.emitLoop memory index = memory.drop index := by
  rw [QTEmulatorDump.emitLoop]
  split
  · rw [emitLoop_eq_drop memory (index + QTEmulatorDump.offset)]
    exact List.drop_take_append_drop memory index QTEmulatorDump.offset
  · exact (List.drop_eq_nil_iff.mpr (by omega)).symm
termination_by memory.length - index
decreasing_by
  simp only [QTEmulatorDump.offset]
  omega

/-- A successful header scan leaves the body bytes a subset of the
file bytes. -/
theorem scanHeader_body_subset (file : List Nat) :
    ∀ ns body, scanHeader file = some (ns, body) → ∀ b ∈ body, b ∈ file := by
  induction file with
  | nil => intro ns body h; simp [scanHeader] at h
  | cons a rest ih =>
    intro ns body h
    rw [scanHeader] at h
    split at h
    · simp only [Option.some.injEq, Prod.mk.injEq] at h
      intro b hb
      exact List.mem_cons_of_mem a (h.2 ▸ hb)
    · revert h
      split
      · rename_i ns' body' heq
        intro h
        simp only [Option.some.injEq, Prod.mk.injEq] at h
        intro b hb
        exact List.mem_cons_of_mem a (ih ns' body' heq b (h.2 ▸ hb))
      · intro h; exact absurd h (by simp)

/-- Header scanning fails to terminate exactly when the file holds no
`0x00` byte — structural-recursion form. -/
theorem scanHeader_eq_none (file : List Nat) (h : ∀ b ∈ file, b ≠ 0) :
    scanHeader file = none := by
  induction file with
  | nil => rfl
  | cons a rest ih =>
    rw [scanHeader]
    rw [if_neg (h a (List.mem_cons_self a rest)), ih (fun b hb => h b (List.mem_cons_of_mem a hb))]

/-- Decoding a full 4-byte group always succeeds and extracts flag,
big-endian value and opcode. -/
theorem decodeGroup_quad (b0 b1 b2 b3 : Nat) :
    decodeGroup [b0, b1, b2, b3] = some (b0 % 2, b1 * 256 + b2, b3) := by
  simp [decodeGroup, fromBytesBE, Nat.and_one_is_mod]

/-- A body of exactly `4 * k` bytes decodes under the wide encoding
into exactly `k` instructions, the `i`-th decoded from the `i`-th
4-byte group. -/
theorem decodeLoop_ok_of_quad (k : Nat) :
    ∀ body : List Nat, body.length = 4 * k →
      ∃ instrs, decodeLoop 4 body = Except.ok instrs ∧ instrs.length = k ∧
        ∀ i, i < k → instrs.get? i = decodeGroup ((body.drop (4 * i)).take 4) := by
  induction k with
  | zero =>
    intro body h
    rw [List.length_eq_zero] at h
    subst h
    exact ⟨[], by simp [decodeLoop], rfl, fun i hi => absurd hi (by omega)⟩
  | succ k ih =>
    intro body h
    match body with
    | [] => simp at h
    | [b0] => simp at h; omega
    | [b0, b1] => simp at h; omega
    | [b0, b1, b2] => simp at h; omega
    | b0 :: b1 :: b2 :: b3 :: rest =>
      have hrest : rest.length = 4 * k := by simp at h; omega
      obtain ⟨ts, hts, hlen, hget⟩ := ih rest hrest
      refine ⟨(b0 % 2, b1 * 256 + b2, b3) :: ts, ?_, ?_, ?_⟩
      · simp [decodeLoop, decodeGroup_quad, hts]
      · simp [hlen]
      · intro i hi
        cases i with
        | zero => simp [decodeGroup_quad]
        | succ j =>
          have hpeel : (b0 :: b1 :: b2 :: b3 :: rest).drop (4 * j + 4) = rest.drop (4 * j) := by
            rw [show 4 * j + 4 = (((4 * j + 1) + 1) + 1) + 1 by ring]
            simp [List.drop_succ_cons]
          rw [show 4 * (j + 1) = 4 * j + 4 by ring, hpeel]
          simpa using hget j (by omega)

/-- A wide-encoding body whose length is not a multiple of 4 always
ends in a partial group, which raises `IndexError` at
`raw_instruction[3]`. -/
theorem decodeLoop4_indexError (body : List Nat) (h : body.length % 4 ≠ 0) :
    decodeLoop 4 body = Except.error LoadError.indexError := by
  match body with
  | [] => simp at h
  | [b0] => simp [decodeLoop, decodeGroup]
  | [b0, b1] => simp [decodeLoop, decodeGroup]
  | [b0, b1, b2] => simp [decodeLoop, decodeGroup]
  | b0 :: b1 :: b2 :: b3 :: rest =>
    have hrec := decodeLoop4_indexError rest (by simp at h ⊢; omega)
    simp [decodeLoop, decodeGroup_quad, hrec]
termination_by body.length
decreasing_by simp; omega

/-- `int.from_bytes` of at most two bytes is below `2 ^ 16`. -/
theorem fromBytesBE_lt (l : List Nat) (hlen : l.length ≤ 2) (hb : ∀ b ∈ l, b < 256) :
    fromBytesBE l < 65536 := by
  match l with
  | [] => simp [fromBytesBE]
  | [a] =>
    have := hb a (by simp)
    simp [fromBytesBE]
    omega
  | [a, b] =>
    have ha := hb a (by simp)
    have hb2 := hb b (by simp)
    simp [fromBytesBE]
    omega
  | a :: b :: c :: _ => simp at hlen

/-- Every instruction produced by the decode loop from a byte body
respects the instruction data model: flag bit, 16-bit value, 8-bit
opcode. -/
theorem decodeLoop_bounds (size : Nat) (body : List Nat) (hb : ∀ b ∈ body, b < 256)
    (instrs : List (Nat × Nat × Nat)) (h : decodeLoop size body = Except.ok instrs) :
    ∀ t ∈ instrs, (t.1 = 0 ∨ t.1 = 1) ∧ t.2.1 < 65536 ∧ t.2.2 < 256 := by
  match body with
  | [] =>
    simp [decodeLoop] at h
    subst h
    intro t ht
    exact absurd ht (by simp)
  | b :: rest =>
    have hraw_sub : ∀ x ∈ b :: rest.take (size - 1), x ∈ b :: rest := by
      intro x hx
      rcases List.mem_cons.mp hx with rfl | hx'
      · exact List.mem_cons_self _ _
      · exact List.mem_cons_of_mem _ (List.take_subset _ _ hx')
    simp only [decodeLoop] at h
    cases h3 : (b :: rest.take (size - 1))[3]? with
    | none =>
      rw [show decodeGroup (b :: rest.take (size - 1)) = none by
        simp [decodeGroup, h3]] at h
      simp at h
    | some b3 =>
      rw [show decodeGroup (b :: rest.take (size - 1)) =
          some (b &&& 1, fromBytesBE (((b :: rest.take (size - 1)).drop 1).take 2), b3) by
        simp [decodeGroup, h3]] at h
      cases hrec : decodeLoop size (rest.drop (size - 1)) with
      | error e => rw [hrec] at h; simp at h
      | ok ts =>
        rw [hrec] at h
        simp only [Except.ok.injEq] at h
        subst h
        intro t ht
        rcases List.mem_cons.mp ht with rfl | hmem
        · refine ⟨?_, ?_, ?_⟩
          · rw [Nat.and_one_is_mod]; omega
          · apply fromBytesBE_lt
            · simp
            · intro x hx
              have hx1 : x ∈ (b :: rest.take (size - 1)).drop 1 := List.take_subset _ _ hx
              have hx2 : x ∈ b :: rest.take (size - 1) := List.drop_subset _ _ hx1
              exact hb x (hraw_sub x hx2)
          · have hmem3 : b3 ∈ b :: rest.take (size - 1) := List.getElem?_mem h3
            exact hb b3 (hraw_sub b3 hmem3)
        · exact decodeLoop_bounds size (rest.drop (size - 1))
            (fun x hx => hb x (List.mem_cons_of_mem _ (List.drop_subset _ _ hx))) ts hrec t hmem
termination_by body.length
decreasing_by simp [List.length_drop]; omega

/-! ### Claim theorems -/

/-- C1: for every 4-byte instruction group decoded under the wide
(`QT`) encoding, the decoder in `load` produces the triple
`(memory_flag, value, opcode)` where `memory_flag` is the
least-significant bit of byte 0, `value` is the big-endian 16-bit
integer formed from bytes 1 and 2, and `opcode` is byte 3. -/
theorem c1_wide_decode (b0 b1 b2 b3 : Nat)
    (h0 : b0 < 256) (h1 : b1 < 256) (h2 : b2 < 256) (h3 : b3 < 256) :
    decodeGroup [b0, b1, b2, b3] = some (b0 % 2, b1 * 256 + b2, b3) :=
  decodeGroup_quad b0 b1 b2 b3

/-- Witness for C1 at the concrete group `[1, 1, 44, 7]`. -/
theorem c1_wide_decode_witness :
    decodeGroup [1, 1, 44, 7] = some (1 % 2, 1 * 256 + 44, 7) :=
  c1_wide_decode 1 1 44 7 (by decide) (by decide) (by decide) (by decide)

/-- C2 (counterexample): on the file `b'QT\x00'` followed by the
single leftover byte `1` — fewer bytes than the 4 a wide group
requires — `load` does not stop and return the instructions decoded so
far (the empty list): it raises an `IndexError`. -/
theorem c2_truncated_tail_counterexample :
    load [81, 84, 0, 1] = some (Except.error LoadError.indexError) ∧
      load [81, 84, 0, 1] ≠ some (Except.ok []) := by
  have h : load [81, 84, 0, 1] = some (Except.error LoadError.indexError) := by
    simp [load, scanHeader, decodeLoop, decodeGroup]
  exact ⟨h, by rw [h]; simp⟩

/-- C2 (amended): at end of file, `load` stops without error and
returns the instructions decoded so far only when zero bytes remain at
a group boundary; when a partial wide group of 1–3 bytes remains it
raises an `IndexError` instead.  No partial instruction is ever
included in a returned list in either case. -/
theorem c2_truncation_behavior (body : List Nat) :
    (body.length % 4 = 0 →
      ∃ instrs, load ([81, 84, 0] ++ body) = some (Except.ok instrs) ∧
        instrs.length = body.length / 4) ∧
    (body.length % 4 ≠ 0 →
      load ([81, 84, 0] ++ body) = some (Except.error LoadError.indexError)) := by
  constructor
  · intro h
    obtain ⟨instrs, h1, h2, _⟩ := decodeLoop_ok_of_quad (body.length / 4) body (by omega)
    exact ⟨instrs, by simp [load, scanHeader, h1], h2⟩
  · intro h
    have herr := decodeLoop4_indexError body h
    simp [load, scanHeader, herr]

/-- Witness for C2 (amended) at the 1-byte leftover body `[1]`. -/
theorem c2_truncation_behavior_witness :
    ([1] : List Nat).length % 4 ≠ 0 ∧
      load ([81, 84, 0] ++ [1]) = some (Except.error LoadError.indexError) :=
  ⟨by decide, (c2_truncation_behavior [1]).2 (by decide)⟩

/-- C3 (code bug witness): on a `QM` file with one complete 3-byte
group, `load` raises an `IndexError` at `raw_instruction[3]` instead
of producing one instruction per group: the byte group has no index 3.
The file is `b'QM\x00'` followed by the group `[1, 1, 44]`. -/
theorem c3_qm_group_index_error :
    load [81, 77, 0, 1, 1, 44] = some (Except.error LoadError.indexError) := by
  simp [load, scanHeader, decodeLoop, decodeGroup]

/-- C4: encoding the instruction `{memory_flag=true, value=300,
opcode=7}` into the wide 4-byte form and decoding it back with the
decode logic of `load` yields the identical triple `(1, 300, 7)`. -/
theorem c4_roundtrip :
    decodeGroup (encodeWide true 300 7) = some (1, 300, 7) := by
  decide

/-- C5: for every file made of the header bytes `b'QT'`, a `0x00`
terminator and then exactly `4 * k` further bytes, `load` returns
exactly `k` instruction tuples, the `i`-th decoded from the `i`-th
4-byte group after the terminator. -/
theorem c5_qt_flat_sequence (body : List Nat) (k : Nat) (h : body.length = 4 * k) :
    ∃ instrs, load ([81, 84, 0] ++ body) = some (Except.ok instrs) ∧
      instrs.length = k ∧
      ∀ i, i < k → instrs.get? i = decodeGroup ((body.drop (4 * i)).take 4) := by
  obtain ⟨instrs, h1, h2, h3⟩ := decodeLoop_ok_of_quad k body h
  exact ⟨instrs, by simp [load, scanHeader, h1], h2, h3⟩

/-- Witness for C5 at a body of two concrete 4-byte groups. -/
theorem c5_qt_flat_sequence_witness :
    ([1, 1, 44, 7, 0, 0, 1, 9] : List Nat).length = 4 * 2 ∧
      ∃ instrs, load ([81, 84, 0] ++ [1, 1, 44, 7, 0, 0, 1, 9]) = some (Except.ok instrs) ∧
        instrs.length = 2 ∧
        ∀ i, i < 2 →
          instrs.get? i = decodeGroup ((([1, 1, 44, 7, 0, 0, 1, 9] : List Nat).drop (4 * i)).take 4) :=
  ⟨by decide, c5_qt_flat_sequence [1, 1, 44, 7, 0, 0, 1, 9] 2 (by decide)⟩

/-- C6: for every input file whose null-terminated namespace header is
neither `QT` nor `QM`, `load` fails with an error and returns no
instruction list. -/
theorem c6_unrecognized_header_error (file ns body : List Nat)
    (hscan : scanHeader file = some (ns, body))
    (hqt : ns ≠ [81, 84]) (hqm : ns ≠ [81, 77]) :
    load file = some (Except.error LoadError.malformedNamespace) := by
  simp only [load, hscan, if_neg hqt, if_neg hqm]

/-- Witness for C6 at the file `[88, 0]` (header `b'X'`). -/
theorem c6_unrecognized_header_error_witness :
    scanHeader [88, 0] = some ([88], []) ∧
      load [88, 0] = some (Except.error LoadError.malformedNamespace) :=
  ⟨by decide, c6_unrecognized_header_error [88, 0] [88] [] (by decide) (by decide) (by decide)⟩

/-- C7: every instruction tuple in the list returned by a successful
call to `load` satisfies the instruction data model: `memory_flag` is
0 or 1, `value` is below `2 ^ 16`, and `opcode` is below `2 ^ 8`. -/
theorem c7_instruction_data_model (file : List Nat) (instrs : List (Nat × Nat × Nat))
    (hbytes : ∀ b ∈ file, b < 256) (h : load file = some (Except.ok instrs)) :
    ∀ t ∈ instrs, (t.1 = 0 ∨ t.1 = 1) ∧ t.2.1 < 65536 ∧ t.2.2 < 256 := by
  unfold load at h
  cases hscan : scanHeader file with
  | none => rw [hscan] at h; simp at h
  | some p =>
    obtain ⟨ns, body⟩ := p
    rw [hscan] at h
    dsimp only at h
    have hbody : ∀ b ∈ body, b < 256 := fun b hb =>
      hbytes b (scanHeader_body_subset file ns body hscan b hb)
    by_cases h1 : ns = [81, 84]
    · rw [if_pos h1] at h
      simp only [Option.some.injEq] at h
      exact decodeLoop_bounds 4 body hbody instrs h
    · by_cases h2 : ns = [81, 77]
      · rw [if_neg h1, if_pos h2] at h
        simp only [Option.some.injEq] at h
        exact decodeLoop_bounds 3 body hbody instrs h
      · rw [if_neg h1, if_neg h2] at h
        simp at h

/-- Witness for C7 at the one-instruction `QT` file
`[81, 84, 0, 1, 1, 44, 7]`. -/
theorem c7_instruction_data_model_witness :
    ((1 : Nat) = 0 ∨ (1 : Nat) = 1) ∧ (300 : Nat) < 65536 ∧ (7 : Nat) < 256 :=
  c7_instruction_data_model [81, 84, 0, 1, 1, 44, 7] [(1, 300, 7)] (by decide)
    (by simp [load, scanHeader, decodeLoop, decodeGroup, fromBytesBE])
    (1, 300, 7) (by simp)

/-- C8: the dump formatter only reads emulator state — the state
threaded through `create_memory_dump` comes back unchanged in every
segment cell and every register, and the row loop emits each
segment's full contents in increasing index order. -/
theorem c8_dump_reads_only (e : QTEmulator) :
    (QTEmulatorDump.create_memory_dump e).2 = e ∧
      QTEmulatorDump.emittedCells e.cache = e.cache ∧
      QTEmulatorDump.emittedCells e.stack = e.stack ∧
      QTEmulatorDump.emittedCells e.address_stack = e.address_stack ∧
      QTEmulatorDump.emittedCells e.ports = e.ports := by
  refine ⟨rfl, ?_, ?_, ?_, ?_⟩ <;>
    rw [QTEmulatorDump.emittedCells, emitLoop_eq_drop, List.drop_zero]

/-- C9: for every input file containing no `0x00` byte, the
header-scanning loop of `load` never exits within any number of
iterations (at end of file `file.read(1)` yields the empty byte
string, which is not the terminator), so `load` does not terminate. -/
theorem c9_no_terminator_diverges (file : List Nat) (h : ∀ b ∈ file, b ≠ 0) :
    (∀ fuel pos ns, scanHeaderFuel file fuel pos ns = none) ∧ load file = none := by
  constructor
  · intro fuel
    induction fuel with
    | zero => intro pos ns; rfl
    | succ n ih =>
      intro pos ns
      rw [scanHeaderFuel]
      rw [if_neg ?_]
      · exact ih _ _
      · intro heq
        have h0 : (0 : Nat) ∈ (file.drop pos).take 1 := by
          rw [heq]; exact List.mem_singleton.mpr rfl
        exact h 0 (List.drop_subset pos file (List.take_subset 1 _ h0)) rfl
  · rw [load, scanHeader_eq_none file h]

/-- Witness for C9 at the terminator-free file `[81, 84]`. -/
theorem c9_no_terminator_diverges_witness :
    (∀ b ∈ ([81, 84] : List Nat), b ≠ 0) ∧
      ((∀ fuel pos ns, scanHeaderFuel [81, 84] fuel pos ns = none) ∧
        load [81, 84] = none) :=
  ⟨by decide, c9_no_terminator_diverges [81, 84] (by decide)⟩

/-- C10: two 4-byte wide groups that agree outside bits 1–7 of byte 0
(that is, whose flag bytes have the same least-significant bit) decode
to the same instruction triple: the upper bits of the flag byte have
no effect. -/
theorem c10_upper_bits_irrelevant (a b c d e : Nat) (h : a % 2 = b % 2) :
    decodeGroup [a, c, d, e] = decodeGroup [b, c, d, e] := by
  rw [decodeGroup_quad, decodeGroup_quad, h]

/-- Witness for C10 at flag bytes 2 and 0 (equal least-significant
bit) over the group tail `[1, 44, 7]`. -/
theorem c10_upper_bits_irrelevant_witness :
    (2 : Nat) % 2 = 0 % 2 ∧ decodeGroup [2, 1, 44, 7] = decodeGroup [0, 1, 44, 7] :=
  ⟨by decide, c10_upper_bits_irrelevant 2 0 1 44 7 (by decide)⟩

end QEmu
